import Mathlib

/-!
Verification of the I2C bus-master finite state machine in
`I2C Tests/i2c_master.c`.

The C module keeps one global context `i2c_fsm` (target address, buffer
pointer, buffer size, byte cursor, FSM state) and drives a nine-state
machine from a hardware interrupt.  We embed the context as a record,
the hardware registers as a trace of operations, and each C function as
a Lean function on the record.  Machine integers (`uint8_t`) are
modelled as `Nat` with explicit `% 256` where the C code truncates.
-/

namespace I2CMaster

/-- The nine FSM states of `I2C_states_enum`, listed in declaration
order (so `I2C_IDLE = 0`, ..., `I2C_BUS_ERR = 8`). -/
inductive I2CState where
  | idle
  | start
  | stop
  | reset
  | txByte
  | rxByte
  | nack
  | arbErr
  | busErr
deriving DecidableEq

/-- The three status flags of `TWI0.MSTATUS` that the ISR inspects:
`TWI_RXACK_bm` (peer NACK), `TWI_ARBLOST_bm`, `TWI_BUSERR_bm`. -/
structure Flags where
  peerNack : Bool
  arbLost : Bool
  busErr : Bool
deriving DecidableEq

/-- The all-clear flag reading (no error bit set). -/
def cleanF : Flags := ⟨false, false, false⟩

/-- Operations the driver performs against the hardware interface.
`writeData none` records a data-register write whose source buffer read
was out of bounds (the C code would read past the array). -/
inductive HwOp where
  | writeAddr (a : Nat)
  | writeData (b : Option Nat)
  | readData
  | stopCmd
  | flushReset
  | forceBusIdle
deriving DecidableEq

/-- Modelled from the spec: the mask `I2C_READ_bm` is defined in the
header `i2c_master.h`, which is not among the provided source files.
The spec states the direction bit is OR-ed into the bit freed by
shifting the 7-bit address left by one, i.e. the lowest bit, so the
read mask is 1. -/
def I2C_READ_bm : Nat := 1

/-- The global context `i2c_data i2c_fsm`: target address (with
direction bit), buffer contents, recorded size, cursor, FSM state. -/
structure I2CData where
  slave_addr : Nat
  byte_array : List Nat
  size_byte_array : Nat
  byte_count : Nat
  state : I2CState
deriving DecidableEq

/-- `i2c_data i2c_fsm = {0}`: the zero-initialized global context. -/
def initialFsm : I2CData :=
  { slave_addr := 0
    byte_array := []
    size_byte_array := 0
    byte_count := 0
    state := .idle }

/-- Result of one FSM action: updated context, returned next state,
hardware operations performed. -/
abbrev FsmResult := I2CData × I2CState × List HwOp

/-- Type of the `fsm_function` callbacks.  Each takes the context and
the current value of the data register `TWI0.MDATA` (used by the
receive action only). -/
abbrev FsmFun := I2CData → Nat → FsmResult

/-- `I2C_M_IDLE`: no hardware action, returns `I2C_IDLE`. -/
def I2C_M_IDLE : FsmFun := fun c _ => (c, .idle, [])

/-- `I2C_M_START`: resets `byte_count`, writes `slave_addr` to
`TWI0.MADDR`, branches on the direction bit. -/
def I2C_M_START : FsmFun := fun c _ =>
  let c := { c with byte_count := 0 }
  (c, if c.slave_addr &&& I2C_READ_bm ≠ 0 then .rxByte else .txByte,
    [.writeAddr c.slave_addr])

/-- `I2C_M_STOP`: issues the stop command, returns `I2C_IDLE`. -/
def I2C_M_STOP : FsmFun := fun c _ => (c, .idle, [.stopCmd])

/-- `I2C_M_RESET`: flushes the peripheral and forces the bus-idle
status, returns `I2C_IDLE`. -/
def I2C_M_RESET : FsmFun := fun c _ => (c, .idle, [.flushReset, .forceBusIdle])

/-- `I2C_M_TX`: writes `byte_array[byte_count]` to `TWI0.MDATA`,
increments the cursor (`uint8_t` arithmetic), goes to `I2C_STOP` when
`byte_count >= size_byte_array`. -/
def I2C_M_TX : FsmFun := fun c _ =>
  let b := c.byte_array.get? c.byte_count
  let c := { c with byte_count := (c.byte_count + 1) % 256 }
  (c, if c.byte_count ≥ c.size_byte_array then .stop else .txByte,
    [.writeData b])

/-- `I2C_M_RX`: stores `TWI0.MDATA` into `byte_array[byte_count]`,
increments the cursor, goes to `I2C_STOP` when
`byte_count >= size_byte_array`. -/
def I2C_M_RX : FsmFun := fun c din =>
  let c := { c with byte_array := c.byte_array.set c.byte_count (din % 256) }
  let c := { c with byte_count := (c.byte_count + 1) % 256 }
  (c, if c.byte_count ≥ c.size_byte_array then .stop else .rxByte,
    [.readData])

/-- `I2C_M_RX_NACK`: tail-calls `I2C_M_STOP`. -/
def I2C_M_RX_NACK : FsmFun := fun c din => I2C_M_STOP c din

/-- `I2C_M_ARB_LOST`: tail-calls `I2C_M_STOP`. -/
def I2C_M_ARB_LOST : FsmFun := fun c din => I2C_M_STOP c din

/-- `I2C_M_BUS_ERR`: tail-calls `I2C_M_STOP`. -/
def I2C_M_BUS_ERR : FsmFun := fun c din => I2C_M_STOP c din

/-- Index of each state in the callback array (the numeric value of the
`I2C_states_enum` constant used to index `state_callbacks`). -/
def stateIdx : I2CState → Nat
  | .idle => 0
  | .start => 1
  | .stop => 2
  | .reset => 3
  | .txByte => 4
  | .rxByte => 5
  | .nack => 6
  | .arbErr => 7
  | .busErr => 8

/-- The `state_callbacks` array, in source order. -/
def state_callbacks : List FsmFun :=
  [I2C_M_IDLE, I2C_M_START, I2C_M_STOP, I2C_M_RESET, I2C_M_TX, I2C_M_RX,
   I2C_M_RX_NACK, I2C_M_ARB_LOST, I2C_M_BUS_ERR]

/-- The status-flag triage of `i2c_state_isr` (lines 145-158): three
sequential overwrites of `i2c_fsm.state`, in the order RXACK (peer
NACK), ARBLOST, BUSERR. -/
def triage (s : I2CState) (f : Flags) : I2CState :=
  let s1 := if f.peerNack then I2CState.nack else s
  let s2 := if f.arbLost then I2CState.arbErr else s1
  if f.busErr then I2CState.busErr else s2

/-- `i2c_state_isr`: triage the flags into the stored state, look the
effective state up in `state_callbacks`, run the action, store its
returned state.  If the table lookup were to fail (it never does, see
the dispatch-totality theorem) the C code would be undefined; the
embedding leaves the context at the triaged state and performs no
operation in that branch. -/
def i2c_state_isr (c : I2CData) (f : Flags) (din : Nat) : I2CData × List HwOp :=
  match state_callbacks.get? (stateIdx (triage c.state f)) with
  | some act =>
      let r := act { c with state := triage c.state f } din
      ({ r.1 with state := r.2.1 }, r.2.2)
  | none => ({ c with state := triage c.state f }, [])

/-- `i2c_set_buffer`: records the buffer and its size, resets the
cursor. -/
def i2c_set_buffer (c : I2CData) (buff : List Nat) (size : Nat) : I2CData :=
  { c with byte_array := buff, size_byte_array := size % 256, byte_count := 0 }

/-- `i2c_master_init`: configures the peripheral (the register
configuration block belongs to the excluded hardware layer; the two
operations also performed by the reset action are recorded), and forces
`state = I2C_IDLE`. -/
def i2c_master_init (c : I2CData) : I2CData × List HwOp :=
  ({ c with state := .idle }, [.flushReset, .forceBusIdle])

/-- `i2c_start`: only when the machine is idle, records
`addr<<1 | read_write` (`uint8_t` truncation) as the target address,
sets the state to `I2C_START` and synchronously runs one ISR step.
The flags and data-register value that step observes are inputs. -/
def i2c_start (c : I2CData) (addr rw : Nat) (f : Flags) (din : Nat) :
    I2CData × List HwOp :=
  if c.state = .idle then
    i2c_state_isr
      { c with
          slave_addr := (((addr % 256) <<< 1) ||| (rw % 256)) % 256
          state := .start } f din
  else (c, [])

/-- Run a list of hardware events (flag readings and data-register
values) through the ISR, concatenating the hardware operations. -/
def runEvents (c : I2CData) : List (Flags × Nat) → I2CData × List HwOp
  | [] => (c, [])
  | e :: es =>
      let r := i2c_state_isr c e.1 e.2
      let r2 := runEvents r.1 es
      (r2.1, r.2 ++ r2.2)

/-- The sequence of effective states dispatched over a list of events. -/
def effTrace (c : I2CData) : List (Flags × Nat) → List I2CState
  | [] => []
  | e :: es => triage c.state e.1 :: effTrace (i2c_state_isr c e.1 e.2).1 es

/-- A foreground call or hardware event. -/
inductive Cmd where
  | sysInit
  | setBuffer (buff : List Nat) (size : Nat)
  | start (addr rw : Nat) (f : Flags) (din : Nat)
  | event (f : Flags) (din : Nat)

/-- Apply one command to the context. -/
def applyCmd (c : I2CData) : Cmd → I2CData × List HwOp
  | .sysInit => i2c_master_init c
  | .setBuffer b n => (i2c_set_buffer c b n, [])
  | .start a rw f d => i2c_start c a rw f d
  | .event f d => i2c_state_isr c f d

/-- Run a list of commands. -/
def runCmds (c : I2CData) : List Cmd → I2CData × List HwOp
  | [] => (c, [])
  | cmd :: rest =>
      let r := applyCmd c cmd
      let r2 := runCmds r.1 rest
      (r2.1, r.2 ++ r2.2)

/-- Run a list of commands from the zero-initialized global context. -/
def run (cmds : List Cmd) : I2CData × List HwOp := runCmds initialFsm cmds

/-- Contexts reachable from `c0` by hardware events alone (one
transaction in flight, no foreground interference). -/
inductive evReach (c0 : I2CData) : I2CData → Prop
  | refl : evReach c0 c0
  | step (c' : I2CData) (f : Flags) (din : Nat) :
      evReach c0 c' → evReach c0 (i2c_state_isr c' f din).1

/-- Direct form of the table dispatch, used to reason by cases on the
effective state. -/
def dispatch : I2CState → FsmFun
  | .idle => I2C_M_IDLE
  | .start => I2C_M_START
  | .stop => I2C_M_STOP
  | .reset => I2C_M_RESET
  | .txByte => I2C_M_TX
  | .rxByte => I2C_M_RX
  | .nack => I2C_M_RX_NACK
  | .arbErr => I2C_M_ARB_LOST
  | .busErr => I2C_M_BUS_ERR

/-- Store an action result back into the context, as the ISR does. -/
def pack (r : FsmResult) : I2CData × List HwOp :=
  ({ r.1 with state := r.2.1 }, r.2.2)

lemma isr_eq (c : I2CData) (f : Flags) (din : Nat) :
    i2c_state_isr c f din =
      pack (dispatch (triage c.state f) { c with state := triage c.state f } din) := by
  cases h : triage c.state f <;>
    (unfold i2c_state_isr pack dispatch; rw [h]) <;> rfl

lemma triage_clean (s : I2CState) : triage s cleanF = s := rfl

lemma triage_mem (s : I2CState) (f : Flags) :
    triage s f = s ∨ triage s f = .nack ∨ triage s f = .arbErr ∨
      triage s f = .busErr := by
  rcases f with ⟨p, a, b⟩
  cases p <;> cases a <;> cases b <;> simp [triage]

lemma triage_not_clean (s : I2CState) (f : Flags) (h : f ≠ cleanF) :
    triage s f = .nack ∨ triage s f = .arbErr ∨ triage s f = .busErr := by
  rcases f with ⟨p, a, b⟩
  cases p <;> cases a <;> cases b <;> simp_all [triage, cleanF]

lemma isr_idle_clean (c : I2CData) (d : Nat) (h : c.state = .idle) :
    i2c_state_isr c cleanF d = ({ c with state := .idle }, []) := by
  rw [isr_eq, triage_clean, h]; rfl

lemma isr_stop_clean (c : I2CData) (d : Nat) (h : c.state = .stop) :
    i2c_state_isr c cleanF d = ({ c with state := .idle }, [.stopCmd]) := by
  rw [isr_eq, triage_clean, h]; rfl

lemma isr_start_clean (c : I2CData) (d : Nat) (h : c.state = .start) :
    i2c_state_isr c cleanF d =
      ({ c with
          byte_count := 0
          state := if c.slave_addr &&& I2C_READ_bm ≠ 0 then .rxByte else .txByte },
        [.writeAddr c.slave_addr]) := by
  rw [isr_eq, triage_clean, h]; rfl

lemma isr_tx_clean (c : I2CData) (d : Nat) (h : c.state = .txByte) :
    i2c_state_isr c cleanF d =
      ({ c with
          byte_count := (c.byte_count + 1) % 256
          state := if (c.byte_count + 1) % 256 ≥ c.size_byte_array then .stop
            else .txByte },
        [.writeData (c.byte_array.get? c.byte_count)]) := by
  rw [isr_eq, triage_clean, h]; rfl

lemma isr_rx_clean (c : I2CData) (d : Nat) (h : c.state = .rxByte) :
    i2c_state_isr c cleanF d =
      ({ c with
          byte_array := c.byte_array.set c.byte_count (d % 256)
          byte_count := (c.byte_count + 1) % 256
          state := if (c.byte_count + 1) % 256 ≥ c.size_byte_array then .stop
            else .rxByte },
        [.readData]) := by
  rw [isr_eq, triage_clean, h]; rfl

lemma isr_errState (c : I2CData) (f : Flags) (d : Nat)
    (h : triage c.state f = .nack ∨ triage c.state f = .arbErr ∨
      triage c.state f = .busErr) :
    i2c_state_isr c f d = ({ c with state := .idle }, [.stopCmd]) := by
  rcases h with h | h | h <;> rw [isr_eq, h] <;> rfl

/-- Claim C1: `beginTransaction` (`i2c_start`) has an effect if and only
if the machine is idle.  With `state = Idle` it sets
`targetAddress = (addr << 1) | direction` (with `uint8_t` truncation),
sets `state = Start`, and synchronously drives exactly one step of the
event handler; with `state ≠ Idle` it is a silent no-op leaving every
field of the context unchanged and touching no hardware register. -/
theorem i2c_start_effect_iff_idle (c : I2CData) (addr rw : Nat) (f : Flags)
    (din : Nat) :
    (c.state ≠ .idle → i2c_start c addr rw f din = (c, [])) ∧
    (c.state = .idle →
      i2c_start c addr rw f din =
        i2c_state_isr
          { c with
              slave_addr := (((addr % 256) <<< 1) ||| (rw % 256)) % 256
              state := .start } f din) := by
  constructor
  · intro h; simp [i2c_start, h]
  · intro h; simp [i2c_start, h]

/-- Witness for C1 at concrete inputs: a busy machine is unchanged; an
idle machine records the address and runs one handler step. -/
theorem i2c_start_effect_iff_idle_witness :
    (i2c_start { initialFsm with state := .txByte } 3 1 cleanF 0 =
      ({ initialFsm with state := .txByte }, [])) ∧
    (i2c_start initialFsm 3 1 cleanF 0 =
      i2c_state_isr { initialFsm with slave_addr := 7, state := .start } cleanF 0) :=
  ⟨(i2c_start_effect_iff_idle { initialFsm with state := .txByte } 3 1 cleanF 0).1
      (by decide),
   (i2c_start_effect_iff_idle initialFsm 3 1 cleanF 0).2 rfl⟩

/-- Claim C3: on every hardware event the handler reads the status
flags in the fixed order peer-NACK, arbitration-lost, bus-error, each
set flag overwriting the effective state before dispatch; in
particular, whenever `peerNack` and `busError` are both set the
effective state is `BusError` and the dispatched action is the
bus-error action (which issues the stop command and idles the
machine). -/
theorem error_triage_order (s : I2CState) (f : Flags) (c : I2CData) (din : Nat) :
    (f.busErr = true → triage s f = .busErr) ∧
    (f.busErr = false → f.arbLost = true → triage s f = .arbErr) ∧
    (f.busErr = false → f.arbLost = false → f.peerNack = true →
      triage s f = .nack) ∧
    (f.busErr = false → f.arbLost = false → f.peerNack = false →
      triage s f = s) ∧
    (f.peerNack = true → f.busErr = true →
      triage c.state f = .busErr ∧
        i2c_state_isr c f din = ({ c with state := .idle }, [.stopCmd])) := by
  rcases f with ⟨p, a, b⟩
  refine ⟨?_, ?_, ?_, ?_, ?_⟩ <;> intros <;> subst_vars <;>
    first
      | rfl
      | (refine ⟨rfl, ?_⟩
         exact isr_errState c ⟨true, a, true⟩ din (Or.inr (Or.inr rfl)))

/-- Witness for C3: with peer-NACK and bus-error raised together on a
mid-transmit context, the dispatched effective state is `BusError` and
the machine aborts with a stop command. -/
theorem error_triage_order_witness :
    triage I2CState.txByte ⟨true, false, true⟩ = .busErr ∧
      i2c_state_isr ⟨4, [9], 1, 0, .txByte⟩ ⟨true, false, true⟩ 0 =
        (⟨4, [9], 1, 0, .idle⟩, [.stopCmd]) :=
  (error_triage_order I2CState.txByte ⟨true, false, true⟩
    ⟨4, [9], 1, 0, .txByte⟩ 0).2.2.2.2 rfl rfl

/-- Claim C5: the `Nack`, `ArbitrationError` and `BusError` actions are
functionally identical to `Stop`: each issues the stop command, returns
`Idle`, and leaves `cursor`, `length`, `buffer` and `targetAddress`
unchanged.  Concretely, a transaction in `TxByte` with `cursor = 1` and
`length = 3` that receives a peer-NACK event dispatches `Nack`, issues
one stop command, and ends idle with the cursor still 1. -/
theorem error_abort_eq_stop (c : I2CData) (din : Nat) (d2 : Nat) :
    I2C_M_RX_NACK c din = I2C_M_STOP c din ∧
    I2C_M_ARB_LOST c din = I2C_M_STOP c din ∧
    I2C_M_BUS_ERR c din = I2C_M_STOP c din ∧
    I2C_M_STOP c din = (c, .idle, [.stopCmd]) ∧
    (c.state = .txByte → c.byte_count = 1 → c.size_byte_array = 3 →
      i2c_state_isr c ⟨true, false, false⟩ d2 =
        ({ c with state := .idle }, [.stopCmd]) ∧
      ({ c with state := I2CState.idle }).byte_count = 1) := by
  refine ⟨rfl, rfl, rfl, rfl, fun hs h1 _h3 => ⟨?_, by simpa using h1⟩⟩
  exact isr_errState c ⟨true, false, false⟩ d2 (Or.inl (by rw [hs]; rfl))

/-- Witness for C5 at a concrete mid-transmit context. -/
theorem error_abort_eq_stop_witness :
    i2c_state_isr ⟨66, [1, 2, 3], 3, 1, .txByte⟩ ⟨true, false, false⟩ 0 =
      (⟨66, [1, 2, 3], 3, 1, .idle⟩, [.stopCmd]) :=
  ((error_abort_eq_stop ⟨66, [1, 2, 3], 3, 1, .txByte⟩ 0 0).2.2.2.2
    rfl rfl rfl).1

/-- Claim C7: the state-to-action lookup is total: the callback table
has exactly nine entries, one for every state value in enumeration
order, and each state maps to exactly its specified action. -/
theorem dispatch_table_total :
    state_callbacks.length = 9 ∧
    (∀ s : I2CState, stateIdx s < state_callbacks.length) ∧
    (∀ s : I2CState, (state_callbacks.get? (stateIdx s)).isSome) ∧
    state_callbacks.get? (stateIdx .idle) = some I2C_M_IDLE ∧
    state_callbacks.get? (stateIdx .start) = some I2C_M_START ∧
    state_callbacks.get? (stateIdx .stop) = some I2C_M_STOP ∧
    state_callbacks.get? (stateIdx .reset) = some I2C_M_RESET ∧
    state_callbacks.get? (stateIdx .txByte) = some I2C_M_TX ∧
    state_callbacks.get? (stateIdx .rxByte) = some I2C_M_RX ∧
    state_callbacks.get? (stateIdx .nack) = some I2C_M_RX_NACK ∧
    state_callbacks.get? (stateIdx .arbErr) = some I2C_M_ARB_LOST ∧
    state_callbacks.get? (stateIdx .busErr) = some I2C_M_BUS_ERR := by
  refine ⟨rfl, fun s => ?_, fun s => ?_, rfl, rfl, rfl, rfl, rfl, rfl, rfl,
    rfl, rfl⟩ <;> cases s <;> decide

/-- Claim C4 counterexample: with `length = 0` (context
`⟨0, [], 0, 0, TxByte⟩`) the TxByte action moves to `Stop`, not back to
`TxByte`, even though the incremented cursor (1) does not equal the
length (0); the code compares with `>=`, not `==`.  The RxByte action
behaves the same way. -/
theorem byte_phase_len0_cex :
    (I2C_M_TX ⟨0, [], 0, 0, .txByte⟩ 0).2.1 = .stop ∧
    (I2C_M_TX ⟨0, [], 0, 0, .txByte⟩ 0).2.1 ≠ .txByte ∧
    ((0 : Nat) + 1) % 256 ≠ 0 ∧
    (I2C_M_RX ⟨0, [], 0, 0, .rxByte⟩ 0).2.1 = .stop := by decide

/-- Claim C4 (amended): the TxByte action writes `buffer[cursor]` to
the data register and increments the cursor (`uint8_t` arithmetic),
returning `Stop` if the incremented cursor is greater than or equal to
`length` and `TxByte` otherwise; RxByte symmetrically reads the data
register into `buffer[cursor]`.  When the incremented cursor stays
below 256 the `Stop` condition coincides with equality for in-range
cursors, but for a transaction with `length = 0` the action moves to
`Stop` (it does not remain in TxByte/RxByte). -/
theorem byte_phase_post (c : I2CData) (din : Nat) :
    ((I2C_M_TX c din).1.byte_count = (c.byte_count + 1) % 256 ∧
      (I2C_M_TX c din).1.byte_array = c.byte_array ∧
      (I2C_M_TX c din).2.2 = [HwOp.writeData (c.byte_array.get? c.byte_count)] ∧
      ((I2C_M_TX c din).2.1 = .stop ↔
        c.size_byte_array ≤ (c.byte_count + 1) % 256) ∧
      (c.byte_count + 1 < 256 → c.byte_count + 1 = c.size_byte_array →
        (I2C_M_TX c din).2.1 = .stop) ∧
      (c.byte_count + 1 < 256 → c.byte_count + 1 < c.size_byte_array →
        (I2C_M_TX c din).2.1 = .txByte) ∧
      (c.size_byte_array = 0 → (I2C_M_TX c din).2.1 = .stop)) ∧
    ((I2C_M_RX c din).1.byte_count = (c.byte_count + 1) % 256 ∧
      (I2C_M_RX c din).1.byte_array = c.byte_array.set c.byte_count (din % 256) ∧
      (I2C_M_RX c din).2.2 = [HwOp.readData] ∧
      ((I2C_M_RX c din).2.1 = .stop ↔
        c.size_byte_array ≤ (c.byte_count + 1) % 256) ∧
      (c.byte_count + 1 < 256 → c.byte_count + 1 = c.size_byte_array →
        (I2C_M_RX c din).2.1 = .stop) ∧
      (c.byte_count + 1 < 256 → c.byte_count + 1 < c.size_byte_array →
        (I2C_M_RX c din).2.1 = .rxByte) ∧
      (c.size_byte_array = 0 → (I2C_M_RX c din).2.1 = .stop)) := by
  refine ⟨⟨rfl, rfl, rfl, ?_, ?_, ?_, ?_⟩, ⟨rfl, rfl, rfl, ?_, ?_, ?_, ?_⟩⟩ <;>
    simp only [I2C_M_TX, I2C_M_RX]
  · by_cases h : c.size_byte_array ≤ (c.byte_count + 1) % 256 <;> simp [h]
  · intro h1 h2
    rw [Nat.mod_eq_of_lt h1, if_pos (by omega : c.byte_count + 1 ≥ c.size_byte_array)]
  · intro h1 h2
    rw [Nat.mod_eq_of_lt h1, if_neg (by omega : ¬c.byte_count + 1 ≥ c.size_byte_array)]
  · intro h0; rw [h0, if_pos (Nat.zero_le _)]
  · by_cases h : c.size_byte_array ≤ (c.byte_count + 1) % 256 <;> simp [h]
  · intro h1 h2
    rw [Nat.mod_eq_of_lt h1, if_pos (by omega : c.byte_count + 1 ≥ c.size_byte_array)]
  · intro h1 h2
    rw [Nat.mod_eq_of_lt h1, if_neg (by omega : ¬c.byte_count + 1 ≥ c.size_byte_array)]
  · intro h0; rw [h0, if_pos (Nat.zero_le _)]

/-- Witness for C4 at concrete contexts: the last byte of a length-1
transmit goes to `Stop`; the first byte of a length-2 transmit stays in
`TxByte`. -/
theorem byte_phase_post_witness :
    (I2C_M_TX ⟨0, [5], 1, 0, .txByte⟩ 0).2.1 = .stop ∧
    (I2C_M_TX ⟨0, [5, 6], 2, 0, .txByte⟩ 0).2.1 = .txByte :=
  ⟨(byte_phase_post ⟨0, [5], 1, 0, .txByte⟩ 0).1.2.2.2.2.1 (by decide) (by decide),
   (byte_phase_post ⟨0, [5, 6], 2, 0, .txByte⟩ 0).1.2.2.2.2.2.1 (by decide)
     (by decide)⟩

lemma dispatch_ne_reset (s : I2CState) (c : I2CData) (din : Nat) :
    (dispatch s c din).2.1 ≠ I2CState.reset := by
  cases s <;>
    simp only [dispatch, I2C_M_IDLE, I2C_M_START, I2C_M_STOP, I2C_M_RESET,
      I2C_M_TX, I2C_M_RX, I2C_M_RX_NACK, I2C_M_ARB_LOST, I2C_M_BUS_ERR] <;>
    first
      | (split <;> simp)
      | simp

lemma isr_state_ne_reset (c : I2CData) (f : Flags) (din : Nat) :
    (i2c_state_isr c f din).1.state ≠ I2CState.reset := by
  rw [isr_eq]
  exact dispatch_ne_reset (triage c.state f) _ din

lemma runCmds_ne_reset :
    ∀ (cmds : List Cmd) (c : I2CData), c.state ≠ .reset →
      (runCmds c cmds).1.state ≠ .reset := by
  intro cmds
  induction cmds with
  | nil => intro c h; exact h
  | cons cmd rest ih =>
      intro c h
      refine ih (applyCmd c cmd).1 ?_
      cases cmd with
      | sysInit => simp [applyCmd, i2c_master_init]
      | setBuffer b n => simpa [applyCmd, i2c_set_buffer] using h
      | start a rw f d =>
          by_cases hi : c.state = .idle
          · simp only [applyCmd, i2c_start, if_pos hi]
            exact isr_state_ne_reset _ f d
          · simp only [applyCmd, i2c_start, if_neg hi]
            exact h
      | event f d => exact isr_state_ne_reset c f d

/-- Claim C10: the Reset action issues the flush command and forces the
bus-idle status, returning `Idle`; `init` performs those same two
interface operations and stores `Idle`.  No error-triage overwrite ever
selects `Reset` (triage yields `Reset` only if it was already stored),
no state action ever returns `Reset`, and consequently no reachable
context ever stores `Reset`, so the Reset action is never dispatched
during event handling. -/
theorem reset_only_from_init (c : I2CData) (din : Nat) (s : I2CState)
    (f : Flags) (cmds : List Cmd) :
    I2C_M_RESET c din = (c, .idle, [.flushReset, .forceBusIdle]) ∧
    (i2c_master_init c).1.state = .idle ∧
    (i2c_master_init c).2 = [.flushReset, .forceBusIdle] ∧
    (triage s f = .reset → s = .reset) ∧
    (dispatch s c din).2.1 ≠ .reset ∧
    (run cmds).1.state ≠ .reset := by
  refine ⟨rfl, rfl, rfl, ?_, dispatch_ne_reset s c din,
    runCmds_ne_reset cmds initialFsm (by decide)⟩
  intro h
  rcases triage_mem s f with ht | ht | ht | ht
  · exact ht.symm.trans h
  · exact absurd (ht.symm.trans h) (by decide)
  · exact absurd (ht.symm.trans h) (by decide)
  · exact absurd (ht.symm.trans h) (by decide)

/-- Witness for C10: triage preserves a stored `Reset` only trivially,
and a concrete init-then-event run never stores `Reset`. -/
theorem reset_only_from_init_witness :
    (I2CState.reset = I2CState.reset) ∧
    (run [Cmd.sysInit, Cmd.event cleanF 0]).1.state ≠ .reset :=
  ⟨(reset_only_from_init initialFsm 0 .reset cleanF []).2.2.2.1 rfl,
   (reset_only_from_init initialFsm 0 .reset cleanF
     [Cmd.sysInit, Cmd.event cleanF 0]).2.2.2.2.2⟩

/-- Claim C8: after any transaction has returned to `Idle` (success or
error abort), `setBuffer` followed by `beginTransaction` with a fresh
buffer and address, followed by any further commands, produces exactly
the same contexts and hardware-operation trace as the same calls made
on a freshly initialized machine: no residual `cursor`, `targetAddress`
or flag value influences the new transaction. -/
theorem reentry_identical (c : I2CData) (h : c.state = .idle)
    (buf : List Nat) (n addr rw : Nat) (f : Flags) (din : Nat)
    (rest : List Cmd) :
    runCmds c (Cmd.setBuffer buf n :: Cmd.start addr rw f din :: rest) =
      runCmds (i2c_master_init initialFsm).1
        (Cmd.setBuffer buf n :: Cmd.start addr rw f din :: rest) := by
  have hc : (i2c_set_buffer c buf n).state = .idle := h
  have hc2 :
      (i2c_set_buffer (i2c_master_init initialFsm).1 buf n).state = .idle := rfl
  simp only [runCmds, applyCmd, i2c_start, hc, hc2, h, if_true, i2c_set_buffer,
    i2c_master_init, initialFsm]

/-- Witness for C8: a context left over from an aborted transaction
(stale address 9, stale cursor 1) behaves exactly like the fresh
machine on a new 2-byte write transaction. -/
theorem reentry_identical_witness :
    runCmds ⟨9, [1], 1, 1, .idle⟩
        [Cmd.setBuffer [2, 3] 2, Cmd.start 5 0 cleanF 0, Cmd.event cleanF 0] =
      runCmds (i2c_master_init initialFsm).1
        [Cmd.setBuffer [2, 3] 2, Cmd.start 5 0 cleanF 0, Cmd.event cleanF 0] :=
  reentry_identical ⟨9, [1], 1, 1, .idle⟩ rfl [2, 3] 2 5 0 cleanF 0
    [Cmd.event cleanF 0]

lemma write_txn_general (A : Nat) (hA : A &&& I2C_READ_bm = 0) (x y z : Nat) :
    i2c_state_isr ⟨A, [x, y, z], 3, 0, .start⟩ cleanF 0 =
      (⟨A, [x, y, z], 3, 0, .txByte⟩, [.writeAddr A]) ∧
    runEvents ⟨A, [x, y, z], 3, 0, .txByte⟩ (List.replicate 5 (cleanF, 0)) =
      (⟨A, [x, y, z], 3, 3, .idle⟩,
        [.writeData (some x), .writeData (some y), .writeData (some z),
         .stopCmd]) ∧
    effTrace ⟨A, [x, y, z], 3, 0, .txByte⟩ (List.replicate 5 (cleanF, 0)) =
      [.txByte, .txByte, .txByte, .stop, .idle] := by
  refine ⟨?_, ?_, ?_⟩
  · rw [isr_start_clean _ 0 rfl]
    rw [show (⟨A, [x, y, z], 3, 0, .start⟩ : I2CData).slave_addr &&&
        I2C_READ_bm = 0 from hA]
    simp
  · simp [runEvents, List.replicate, isr_tx_clean, isr_stop_clean,
      isr_idle_clean]
  · simp [effTrace, List.replicate, isr_tx_clean, isr_stop_clean,
      isr_idle_clean, triage_clean]

/-- Claim C6: a transaction begun with `length = 3` and the
write-direction bit, with no error flag on any event, dispatches the
effective states `Start, TxByte, TxByte, TxByte, Stop, Idle` and
performs exactly one address write followed by three data-register
writes of `buffer[0]`, `buffer[1]`, `buffer[2]` in order and one stop
command; the direction bit in the recorded target address selects the
transmit branch once at `Start` and the byte phase never re-evaluates
it. -/
theorem write_txn_scenario (addr x y z : Nat) :
    triage I2CState.start cleanF ::
        effTrace
          (i2c_start (i2c_set_buffer initialFsm [x, y, z] 3) addr 0 cleanF 0).1
          (List.replicate 5 (cleanF, 0)) =
      [.start, .txByte, .txByte, .txByte, .stop, .idle] ∧
    (i2c_start (i2c_set_buffer initialFsm [x, y, z] 3) addr 0 cleanF 0).2 ++
        (runEvents
          (i2c_start (i2c_set_buffer initialFsm [x, y, z] 3) addr 0 cleanF 0).1
          (List.replicate 5 (cleanF, 0))).2 =
      [.writeAddr ((((addr % 256) <<< 1) ||| (0 % 256)) % 256),
       .writeData (some x), .writeData (some y), .writeData (some z),
       .stopCmd] ∧
    (runEvents
        (i2c_start (i2c_set_buffer initialFsm [x, y, z] 3) addr 0 cleanF 0).1
        (List.replicate 5 (cleanF, 0))).1.state = .idle ∧
    (runEvents
        (i2c_start (i2c_set_buffer initialFsm [x, y, z] 3) addr 0 cleanF 0).1
        (List.replicate 5 (cleanF, 0))).1.byte_count = 3 := by
  have hA : ((((addr % 256) <<< 1) ||| (0 % 256)) % 256) &&& I2C_READ_bm = 0 := by
    have h2 : (((addr % 256) <<< 1) ||| (0 % 256)) = addr % 256 * 2 := by
      rw [Nat.shiftLeft_eq]; simp
    rw [h2]
    show (addr % 256 * 2) % 256 &&& 1 = 0
    rw [Nat.and_one_is_mod, Nat.mod_mod_of_dvd _ (by norm_num : (2 : ℕ) ∣ 256),
      Nat.mul_mod_left]
  obtain ⟨g1, g2, g3⟩ := write_txn_general _ hA x y z
  have h0 : i2c_start (i2c_set_buffer initialFsm [x, y, z] 3) addr 0 cleanF 0 =
      i2c_state_isr
        (⟨(((addr % 256) <<< 1) ||| (0 % 256)) % 256, [x, y, z], 3, 0,
          .start⟩ : I2CData) cleanF 0 := rfl
  rw [h0, g1]
  refine ⟨?_, ?_, ?_, ?_⟩
  · dsimp only
    rw [triage_clean, g3]
  · dsimp only
    rw [g2]
    rfl
  · dsimp only
    rw [g2]
  · dsimp only
    rw [g2]

/-- The cursor-bound invariant that actually holds of every reachable
context: the recorded size fits in a byte, the cursor is bounded by
`max size 1` (expressed as a disjunction), and while a byte phase is
pending the cursor is strictly below the size or the transaction was
begun with size 0 (cursor 0). -/
def CursorInv (c : I2CData) : Prop :=
  c.size_byte_array < 256 ∧
  (c.byte_count ≤ c.size_byte_array ∨ c.byte_count ≤ 1) ∧
  ((c.state = .txByte ∨ c.state = .rxByte) →
    (c.byte_count < c.size_byte_array ∨ c.byte_count = 0))

lemma cursorInv_isr (c : I2CData) (f : Flags) (din : Nat) (h : CursorInv c) :
    CursorInv (i2c_state_isr c f din).1 := by
  obtain ⟨h256, hle, htx⟩ := h
  rw [isr_eq]
  rcases triage_mem c.state f with ht | ht | ht | ht
  · rw [ht]
    cases hs : c.state with
    | idle => exact ⟨h256, hle, fun hh => nomatch hh⟩
    | start => exact ⟨h256, Or.inr (Nat.zero_le 1), fun _ => Or.inr rfl⟩
    | stop => exact ⟨h256, hle, fun hh => nomatch hh⟩
    | reset => exact ⟨h256, hle, fun hh => nomatch hh⟩
    | txByte =>
        rcases htx (Or.inl hs) with h1 | h1 <;>
          · simp only [pack, dispatch, I2C_M_TX]
            unfold CursorInv
            dsimp only
            split
            · exact ⟨h256, by omega, fun hh => nomatch hh⟩
            · exact ⟨h256, by omega, fun _ => Or.inl (by omega)⟩
    | rxByte =>
        rcases htx (Or.inr hs) with h1 | h1 <;>
          · simp only [pack, dispatch, I2C_M_RX]
            unfold CursorInv
            dsimp only
            split
            · exact ⟨h256, by omega, fun hh => nomatch hh⟩
            · exact ⟨h256, by omega, fun _ => Or.inl (by omega)⟩
    | nack => exact ⟨h256, hle, fun hh => nomatch hh⟩
    | arbErr => exact ⟨h256, hle, fun hh => nomatch hh⟩
    | busErr => exact ⟨h256, hle, fun hh => nomatch hh⟩
  · rw [ht]
    exact ⟨h256, hle, fun hh => nomatch hh⟩
  · rw [ht]
    exact ⟨h256, hle, fun hh => nomatch hh⟩
  · rw [ht]
    exact ⟨h256, hle, fun hh => nomatch hh⟩

lemma cursorInv_applyCmd (c : I2CData) (cmd : Cmd) (h : CursorInv c) :
    CursorInv (applyCmd c cmd).1 := by
  obtain ⟨h256, hle, htx⟩ := h
  cases cmd with
  | sysInit => exact ⟨h256, hle, fun hh => nomatch hh⟩
  | setBuffer b n =>
      exact ⟨Nat.mod_lt _ (by omega), Or.inr (Nat.zero_le 1), fun _ => Or.inr rfl⟩
  | start a rw f d =>
      by_cases hi : c.state = .idle
      · simp only [applyCmd, i2c_start]
        rw [if_pos hi]
        exact cursorInv_isr _ f d ⟨h256, hle, fun hh => nomatch hh⟩
      · simp only [applyCmd, i2c_start]
        rw [if_neg hi]
        exact ⟨h256, hle, htx⟩
  | event f d => exact cursorInv_isr c f d ⟨h256, hle, htx⟩

lemma cursorInv_runCmds (cmds : List Cmd) :
    ∀ c : I2CData, CursorInv c → CursorInv (runCmds c cmds).1 := by
  induction cmds with
  | nil => intro c h; exact h
  | cons cmd rest ih => intro c h; exact ih _ (cursorInv_applyCmd c cmd h)

lemma cursorInv_initialFsm : CursorInv initialFsm :=
  ⟨by decide, Or.inr (by decide), fun hh => nomatch hh⟩

lemma frozen_step (c : I2CData) (f : Flags) (din : Nat)
    (h : c.state = .stop ∨ c.state = .idle) :
    (i2c_state_isr c f din).1.byte_count = c.byte_count ∧
    ((i2c_state_isr c f din).1.state = .stop ∨
      (i2c_state_isr c f din).1.state = .idle) := by
  rcases triage_mem c.state f with ht | ht | ht | ht
  · rcases h with h | h
    · rw [isr_eq, ht, h]
      exact ⟨rfl, Or.inr rfl⟩
    · rw [isr_eq, ht, h]
      exact ⟨rfl, Or.inr rfl⟩
  · rw [isr_eq, ht]
    exact ⟨rfl, Or.inr rfl⟩
  · rw [isr_eq, ht]
    exact ⟨rfl, Or.inr rfl⟩
  · rw [isr_eq, ht]
    exact ⟨rfl, Or.inr rfl⟩

lemma frozen_count (es : List (Flags × Nat)) :
    ∀ c : I2CData, (c.state = .stop ∨ c.state = .idle) →
      (runEvents c es).1.byte_count = c.byte_count := by
  induction es with
  | nil => intro c _; rfl
  | cons e es ih =>
      intro c h
      obtain ⟨h1, h3⟩ := frozen_step c e.1 e.2 h
      exact (ih (i2c_state_isr c e.1 e.2).1 h3).trans h1

lemma txn_count (es : List (Flags × Nat)) :
    ∀ c : I2CData, c.size_byte_array < 256 →
      (c.state = .txByte ∨ c.state = .rxByte) →
      c.byte_count < c.size_byte_array →
      ((runEvents c es).1.byte_count = c.size_byte_array ↔
        (c.size_byte_array - c.byte_count ≤ es.length ∧
          ∀ e ∈ es.take (c.size_byte_array - c.byte_count), e.1 = cleanF)) := by
  induction es with
  | nil =>
      intro c h256 hst hlt
      simp only [runEvents, List.length_nil, List.take_nil, List.not_mem_nil,
        false_implies, implies_true, and_true]
      omega
  | cons e es ih =>
      intro c h256 hst hlt
      obtain ⟨f, d⟩ := e
      have hk : c.size_byte_array - c.byte_count =
          (c.size_byte_array - (c.byte_count + 1)) + 1 := by omega
      by_cases hf : f = cleanF
      · subst hf
        have hm : (c.byte_count + 1) % 256 = c.byte_count + 1 :=
          Nat.mod_eq_of_lt (by omega)
        by_cases hdone : c.byte_count + 1 = c.size_byte_array
        · -- the transaction completes at this event
          have hstep2 : ∀ st : I2CData,
              st = (i2c_state_isr c cleanF d).1 →
              st.state = .stop → st.byte_count = c.byte_count + 1 →
              ((runEvents c (((cleanF, d)) :: es)).1.byte_count =
                c.byte_count + 1) := by
            intro st hse hss hsc
            have hfz := frozen_count es st (Or.inl hss)
            calc (runEvents c (((cleanF, d)) :: es)).1.byte_count
                = (runEvents (i2c_state_isr c cleanF d).1 es).1.byte_count := rfl
              _ = (runEvents st es).1.byte_count := by rw [hse]
              _ = st.byte_count := hfz
              _ = c.byte_count + 1 := hsc
          have hcount : (runEvents c (((cleanF, d)) :: es)).1.byte_count =
              c.byte_count + 1 := by
            rcases hst with hst | hst
            · refine hstep2 ⟨c.slave_addr, c.byte_array, c.size_byte_array,
                  (c.byte_count + 1) % 256,
                  if (c.byte_count + 1) % 256 ≥ c.size_byte_array
                    then I2CState.stop else I2CState.txByte⟩ ?_ ?_ ?_
              · rw [isr_tx_clean c d hst]
              · show (if (c.byte_count + 1) % 256 ≥ c.size_byte_array
                    then I2CState.stop else I2CState.txByte) = I2CState.stop
                rw [hm, if_pos (by omega : c.byte_count + 1 ≥ c.size_byte_array)]
              · show (c.byte_count + 1) % 256 = c.byte_count + 1
                exact hm
            · refine hstep2 ⟨c.slave_addr,
                  c.byte_array.set c.byte_count (d % 256), c.size_byte_array,
                  (c.byte_count + 1) % 256,
                  if (c.byte_count + 1) % 256 ≥ c.size_byte_array
                    then I2CState.stop else I2CState.rxByte⟩ ?_ ?_ ?_
              · rw [isr_rx_clean c d hst]
              · show (if (c.byte_count + 1) % 256 ≥ c.size_byte_array
                    then I2CState.stop else I2CState.rxByte) = I2CState.stop
                rw [hm, if_pos (by omega : c.byte_count + 1 ≥ c.size_byte_array)]
              · show (c.byte_count + 1) % 256 = c.byte_count + 1
                exact hm
          rw [hcount]
          constructor
          · intro _
            refine ⟨by simp only [List.length_cons]; omega, ?_⟩
            intro e he
            rw [hk, show c.size_byte_array - (c.byte_count + 1) = 0 from by omega,
              List.take_succ_cons, List.take_zero] at he
            simp only [List.mem_singleton] at he
            rw [he]
          · intro _
            exact hdone
        · -- at least one more byte phase follows
          have hlt2 : c.byte_count + 1 < c.size_byte_array := by omega
          rcases hst with hst | hst
          · have hstep2 : (i2c_state_isr c cleanF d).1 =
                (⟨c.slave_addr, c.byte_array, c.size_byte_array,
                  c.byte_count + 1, I2CState.txByte⟩ : I2CData) := by
              rw [isr_tx_clean c d hst]
              dsimp only
              rw [hm, if_neg (by omega : ¬c.byte_count + 1 ≥ c.size_byte_array)]
            have ihh := ih ⟨c.slave_addr, c.byte_array, c.size_byte_array,
                c.byte_count + 1, I2CState.txByte⟩ h256 (Or.inl rfl) hlt2
            dsimp only at ihh
            have hgoal : (runEvents c (((cleanF, d)) :: es)).1 =
                (runEvents (⟨c.slave_addr, c.byte_array, c.size_byte_array,
                  c.byte_count + 1, I2CState.txByte⟩ : I2CData) es).1 := by
              show (runEvents (i2c_state_isr c cleanF d).1 es).1 = _
              rw [hstep2]
            rw [hgoal, ihh, hk, List.take_succ_cons]
            constructor
            · rintro ⟨ha, hb⟩
              refine ⟨by simp only [List.length_cons]; omega, ?_⟩
              intro e he
              rcases List.mem_cons.mp he with he | he
              · rw [he]
              · exact hb e he
            · rintro ⟨ha, hb⟩
              refine ⟨by simp only [List.length_cons] at ha; omega, ?_⟩
              intro e he
              exact hb e (List.mem_cons_of_mem _ he)
          · have hstep2 : (i2c_state_isr c cleanF d).1 =
                (⟨c.slave_addr, c.byte_array.set c.byte_count (d % 256),
                  c.size_byte_array, c.byte_count + 1,
                  I2CState.rxByte⟩ : I2CData) := by
              rw [isr_rx_clean c d hst]
              dsimp only
              rw [hm, if_neg (by omega : ¬c.byte_count + 1 ≥ c.size_byte_array)]
            have ihh := ih ⟨c.slave_addr,
                c.byte_array.set c.byte_count (d % 256), c.size_byte_array,
                c.byte_count + 1, I2CState.rxByte⟩ h256 (Or.inr rfl) hlt2
            dsimp only at ihh
            have hgoal : (runEvents c (((cleanF, d)) :: es)).1 =
                (runEvents (⟨c.slave_addr,
                  c.byte_array.set c.byte_count (d % 256), c.size_byte_array,
                  c.byte_count + 1, I2CState.rxByte⟩ : I2CData) es).1 := by
              show (runEvents (i2c_state_isr c cleanF d).1 es).1 = _
              rw [hstep2]
            rw [hgoal, ihh, hk, List.take_succ_cons]
            constructor
            · rintro ⟨ha, hb⟩
              refine ⟨by simp only [List.length_cons]; omega, ?_⟩
              intro e he
              rcases List.mem_cons.mp he with he | he
              · rw [he]
              · exact hb e he
            · rintro ⟨ha, hb⟩
              refine ⟨by simp only [List.length_cons] at ha; omega, ?_⟩
              intro e he
              exact hb e (List.mem_cons_of_mem _ he)
      · -- an error flag aborts the transaction at this event
        have ht := triage_not_clean c.state f hf
        have hstep2 : (i2c_state_isr c f d).1 =
            (⟨c.slave_addr, c.byte_array, c.size_byte_array, c.byte_count,
              I2CState.idle⟩ : I2CData) := by
          rw [isr_errState c f d ht]
        have hfz := frozen_count es ⟨c.slave_addr, c.byte_array,
            c.size_byte_array, c.byte_count, I2CState.idle⟩ (Or.inr rfl)
        have hgoal : (runEvents c ((f, d) :: es)).1 =
            (runEvents (⟨c.slave_addr, c.byte_array, c.size_byte_array,
              c.byte_count, I2CState.idle⟩ : I2CData) es).1 := by
          show (runEvents (i2c_state_isr c f d).1 es).1 = _
          rw [hstep2]
        rw [hgoal, hfz]
        constructor
        · intro hcc
          dsimp only at hcc
          exact absurd hcc (by omega)
        · rintro ⟨ha, hb⟩
          have hmem : (f, d) ∈ ((f, d) :: es).take
              (c.size_byte_array - c.byte_count) := by
            rw [hk, List.take_succ_cons]
            exact List.mem_cons_self _ _
          exact absurd (hb (f, d) hmem) hf

lemma completion_iff (c0 : I2CData) (buf : List Nat) (n addr rw d0 : Nat)
    (es : List (Flags × Nat)) (h0 : c0.state = .idle) (hn1 : 1 ≤ n)
    (hn2 : n < 256) :
    ((runEvents (i2c_start (i2c_set_buffer c0 buf n) addr rw cleanF d0).1
        es).1.byte_count = n ↔
      (n ≤ es.length ∧ ∀ e ∈ es.take n, e.1 = cleanF)) := by
  have hguard : (i2c_set_buffer c0 buf n).state = .idle := h0
  have hn : n % 256 = n := Nat.mod_eq_of_lt hn2
  have h1 : i2c_start (i2c_set_buffer c0 buf n) addr rw cleanF d0 =
      i2c_state_isr
        { i2c_set_buffer c0 buf n with
            slave_addr := (((addr % 256) <<< 1) ||| (rw % 256)) % 256
            state := .start } cleanF d0 := by
    simp only [i2c_start]
    rw [if_pos hguard]
  have h2 : (i2c_state_isr
      { i2c_set_buffer c0 buf n with
          slave_addr := (((addr % 256) <<< 1) ||| (rw % 256)) % 256
          state := .start } cleanF d0).1 =
      (⟨(((addr % 256) <<< 1) ||| (rw % 256)) % 256, buf, n, 0,
        if (((addr % 256) <<< 1) ||| (rw % 256)) % 256 &&& I2C_READ_bm ≠ 0
          then I2CState.rxByte else I2CState.txByte⟩ : I2CData) := by
    rw [isr_start_clean _ d0 rfl]
    dsimp only [i2c_set_buffer]
    rw [hn]
  rw [h1, h2]
  by_cases hbit :
      (((addr % 256) <<< 1) ||| (rw % 256)) % 256 &&& I2C_READ_bm ≠ 0
  · rw [if_pos hbit]
    have h4 := txn_count es
      ⟨(((addr % 256) <<< 1) ||| (rw % 256)) % 256, buf, n, 0,
        I2CState.rxByte⟩ hn2 (Or.inr rfl) hn1
    dsimp only at h4
    rw [h4]
    simp only [Nat.sub_zero]
  · rw [if_neg hbit]
    have h4 := txn_count es
      ⟨(((addr % 256) <<< 1) ||| (rw % 256)) % 256, buf, n, 0,
        I2CState.txByte⟩ hn2 (Or.inl rfl) hn1
    dsimp only at h4
    rw [h4]
    simp only [Nat.sub_zero]

/-- Claim C2 counterexample: beginning a transaction with `length = 0`
and delivering one clean event drives the cursor to 1 while the length
is 0, so `cursor ≤ length` does not hold of every reachable context. -/
theorem cursor_bound_cex :
    (run [Cmd.setBuffer [] 0, Cmd.start 0 0 cleanF 0,
        Cmd.event cleanF 0]).1.byte_count = 1 ∧
    (run [Cmd.setBuffer [] 0, Cmd.start 0 0 cleanF 0,
        Cmd.event cleanF 0]).1.size_byte_array = 0 ∧
    ¬((run [Cmd.setBuffer [] 0, Cmd.start 0 0 cleanF 0,
        Cmd.event cleanF 0]).1.byte_count ≤
      (run [Cmd.setBuffer [] 0, Cmd.start 0 0 cleanF 0,
        Cmd.event cleanF 0]).1.size_byte_array) := by decide

/-- Claim C2 (amended): for every reachable context,
`0 ≤ cursor ≤ max(length, 1)`; in particular `cursor ≤ length` holds
whenever `length ≥ 1` (a transaction begun with `length = 0` drives
the cursor to 1 at its single byte-phase event).  For a transaction
begun from an idle context with `1 ≤ length < 256` and a clean start
event, the cursor reaches exactly `length` if and only if at least
`length` events are delivered and the first `length` of them report no
error flag. -/
theorem cursor_bound_inv :
    (∀ cmds : List Cmd,
      ((run cmds).1.byte_count ≤ (run cmds).1.size_byte_array ∨
        (run cmds).1.byte_count ≤ 1) ∧
      (1 ≤ (run cmds).1.size_byte_array →
        (run cmds).1.byte_count ≤ (run cmds).1.size_byte_array)) ∧
    (∀ (c0 : I2CData) (buf : List Nat) (n addr rw d0 : Nat)
        (es : List (Flags × Nat)), c0.state = .idle → 1 ≤ n → n < 256 →
      ((runEvents (i2c_start (i2c_set_buffer c0 buf n) addr rw cleanF d0).1
          es).1.byte_count = n ↔
        (n ≤ es.length ∧ ∀ e ∈ es.take n, e.1 = cleanF))) := by
  constructor
  · intro cmds
    have h : CursorInv (run cmds).1 :=
      cursorInv_runCmds cmds initialFsm cursorInv_initialFsm
    obtain ⟨h256, hle, _⟩ := h
    exact ⟨hle, fun h1 => by omega⟩
  · intro c0 buf n addr rw d0 es h0 hn1 hn2
    exact completion_iff c0 buf n addr rw d0 es h0 hn1 hn2

/-- Witness for C2 at concrete inputs: after a one-byte transaction the
cursor is bounded by the length, and the completion criterion holds for
one clean event. -/
theorem cursor_bound_inv_witness :
    ((run [Cmd.setBuffer [5] 1, Cmd.start 0 0 cleanF 0]).1.byte_count ≤
      (run [Cmd.setBuffer [5] 1, Cmd.start 0 0 cleanF 0]).1.size_byte_array) ∧
    ((runEvents (i2c_start (i2c_set_buffer initialFsm [5] 1) 0 0 cleanF 0).1
        [(cleanF, 0)]).1.byte_count = 1) :=
  ⟨(cursor_bound_inv.1 [Cmd.setBuffer [5] 1, Cmd.start 0 0 cleanF 0]).2
      (by decide),
   (cursor_bound_inv.2 initialFsm [5] 1 0 0 0 [(cleanF, 0)] rfl (by decide)
      (by decide)).mpr ⟨by decide, by simp⟩⟩

lemma txn_inv_step (n : Nat) (hn1 : 1 ≤ n) (hn2 : n < 256) (c : I2CData)
    (f : Flags) (din : Nat)
    (h : c.size_byte_array = n ∧
      ((c.state = .txByte ∨ c.state = .rxByte) → c.byte_count < n)) :
    (i2c_state_isr c f din).1.size_byte_array = n ∧
      (((i2c_state_isr c f din).1.state = .txByte ∨
        (i2c_state_isr c f din).1.state = .rxByte) →
        (i2c_state_isr c f din).1.byte_count < n) := by
  obtain ⟨hsz, htx⟩ := h
  rw [isr_eq]
  rcases triage_mem c.state f with ht | ht | ht | ht
  · rw [ht]
    cases hs : c.state with
    | idle => exact ⟨hsz, fun hh => nomatch hh⟩
    | start => exact ⟨hsz, fun _ => hn1⟩
    | stop => exact ⟨hsz, fun hh => nomatch hh⟩
    | reset => exact ⟨hsz, fun hh => nomatch hh⟩
    | txByte =>
        have h1 := htx (Or.inl hs)
        simp only [pack, dispatch, I2C_M_TX]
        refine ⟨hsz, ?_⟩
        intro hh
        dsimp only at hh ⊢
        by_cases hcond : (c.byte_count + 1) % 256 ≥ c.size_byte_array
        · rw [if_pos hcond] at hh
          exact absurd hh (by decide)
        · omega
    | rxByte =>
        have h1 := htx (Or.inr hs)
        simp only [pack, dispatch, I2C_M_RX]
        refine ⟨hsz, ?_⟩
        intro hh
        dsimp only at hh ⊢
        by_cases hcond : (c.byte_count + 1) % 256 ≥ c.size_byte_array
        · rw [if_pos hcond] at hh
          exact absurd hh (by decide)
        · omega
    | nack => exact ⟨hsz, fun hh => nomatch hh⟩
    | arbErr => exact ⟨hsz, fun hh => nomatch hh⟩
    | busErr => exact ⟨hsz, fun hh => nomatch hh⟩
  · rw [ht]
    exact ⟨hsz, fun hh => nomatch hh⟩
  · rw [ht]
    exact ⟨hsz, fun hh => nomatch hh⟩
  · rw [ht]
    exact ⟨hsz, fun hh => nomatch hh⟩

/-- Claim C9 (implicit): in a transaction begun with `1 ≤ length < 256`
from an idle context, every event-reachable context that is about to
dispatch a byte-phase action (`state` is `TxByte` or `RxByte`) has
`cursor < length`; hence when the buffer really has `length` elements
the `Option`-valued buffer read `get? cursor` is `some`, i.e. the
out-of-bounds branch is unreachable. -/
theorem byte_phase_inbounds (c0 : I2CData) (buf : List Nat)
    (n addr rw d0 : Nat) (f0 : Flags) (c : I2CData)
    (h0 : c0.state = .idle) (hn1 : 1 ≤ n) (hn2 : n < 256)
    (hr : evReach (i2c_start (i2c_set_buffer c0 buf n) addr rw f0 d0).1 c)
    (hs : c.state = .txByte ∨ c.state = .rxByte) :
    c.byte_count < c.size_byte_array ∧
    (c.byte_array.length = c.size_byte_array →
      (c.byte_array.get? c.byte_count).isSome) := by
  have hinv : ∀ c2 : I2CData,
      evReach (i2c_start (i2c_set_buffer c0 buf n) addr rw f0 d0).1 c2 →
        c2.size_byte_array = n ∧
          ((c2.state = .txByte ∨ c2.state = .rxByte) → c2.byte_count < n) := by
    intro c2 h2
    induction h2 with
    | refl =>
        have hguard : (i2c_set_buffer c0 buf n).state = .idle := h0
        have h1 : i2c_start (i2c_set_buffer c0 buf n) addr rw f0 d0 =
            i2c_state_isr
              { i2c_set_buffer c0 buf n with
                  slave_addr := (((addr % 256) <<< 1) ||| (rw % 256)) % 256
                  state := .start } f0 d0 := by
          simp only [i2c_start]
          rw [if_pos hguard]
        rw [h1]
        exact txn_inv_step n hn1 hn2 _ f0 d0
          ⟨Nat.mod_eq_of_lt hn2, fun hh => nomatch hh⟩
    | step cB f d hAB ih => exact txn_inv_step n hn1 hn2 cB f d ih
  obtain ⟨hsz, htx⟩ := hinv c hr
  have hlt := htx hs
  constructor
  · rw [hsz]
    exact hlt
  · intro hlen
    cases hq : c.byte_array.get? c.byte_count with
    | some v => rfl
    | none =>
        exfalso
        have := List.get?_eq_none.mp hq
        omega

/-- Witness for C9: the context reached right after beginning a
one-byte write transaction is in `TxByte` with cursor 0 < length 1 and
an in-bounds buffer read. -/
theorem byte_phase_inbounds_witness :
    ((i2c_start (i2c_set_buffer initialFsm [7] 1) 0 0 cleanF 0).1.byte_count <
      (i2c_start (i2c_set_buffer initialFsm [7] 1) 0 0 cleanF
        0).1.size_byte_array) ∧
    ((i2c_start (i2c_set_buffer initialFsm [7] 1) 0 0 cleanF
        0).1.byte_array.get?
      (i2c_start (i2c_set_buffer initialFsm [7] 1) 0 0 cleanF
        0).1.byte_count).isSome := by
  have h := byte_phase_inbounds initialFsm [7] 1 0 0 0 cleanF
    (i2c_start (i2c_set_buffer initialFsm [7] 1) 0 0 cleanF 0).1 rfl
    (by decide) (by decide) evReach.refl (Or.inl rfl)
  exact ⟨h.1, h.2 rfl⟩

end I2CMaster
